import Mathlib

/-! # Shallow embedding of the aoi.locale runtime-localization module

Definitions translate the JavaScript sources:
* `TextInterpolator` (interpolate / interpolateNamedParams /
  interpolateArrayParams / parseArguments),
* `LocaleLoader` (getFromLocale / getFirstAvailableLocale /
  getAvailableLocales / addLocale / hasLocale),
* `AoiLocale.getText` and the `$locale` function pipeline of
  `FunctionManager.addLocaleFunction`,
* `LanguageDetector` (detectUserLanguage / executeLanguageSource).

JavaScript strings are Lean `String` (with algorithms over `List Char`);
JavaScript plain objects are association lists with in-place update on
re-assignment (`jsSet`), mirroring both object property writes and
`Map.set`; JavaScript exceptions are `Except Unit`; `null`/`undefined`
results are `Option`.
-/

namespace AoiLocale

/-- The `{` character, used by the brace-token syntax of templates. -/
def lbrace : Char := Char.ofNat 123

/-- The `}` character. -/
def rbrace : Char := Char.ofNat 125

/-- Whitespace as consumed by `String.prototype.trim` (ASCII part). -/
def isWsChar (c : Char) : Bool := c == ' ' || c == '\t' || c == '\n' || c == '\r'

/-- `arg.trim()` on the character list of a string. -/
def trimCh (l : List Char) : List Char :=
  ((l.dropWhile isWsChar).reverse.dropWhile isWsChar).reverse

/-- ASCII `toLowerCase` on one character. -/
def toLowerChar (c : Char) : Char :=
  if 65 ≤ c.toNat ∧ c.toNat ≤ 90 then Char.ofNat (c.toNat + 32) else c

/-- `s.toLowerCase()`. -/
def lowerStr (s : String) : String := ⟨s.data.map toLowerChar⟩

/-- The regex class `\d`. -/
def isDigitChar (c : Char) : Bool := decide (48 ≤ c.toNat ∧ c.toNat ≤ 57)

/-- ASCII letters, as in the language-code regex `/^[a-z]{2,3}$/i`. -/
def isAlphaChar (c : Char) : Bool :=
  decide ((65 ≤ c.toNat ∧ c.toNat ≤ 90) ∨ (97 ≤ c.toNat ∧ c.toNat ≤ 122))

/-- The regex class `\w`. -/
def isWordChar (c : Char) : Bool := isAlphaChar c || isDigitChar c || c == '_'

/-- `parseInt` on a non-empty all-digit string. -/
def digitsToNat (l : List Char) : Nat :=
  l.foldl (fun acc c => acc * 10 + (c.toNat - 48)) 0

/-! ## JavaScript object / Map model

A JS plain object (and a JS `Map`) is an association list in insertion
order.  Assigning to an existing key updates it in place; assigning to a
fresh key appends.  -/

/-- Property read (`o[k]`, `map.get(k)`, also the `k in o` test). -/
def jsGet {α : Type} : List (String × α) → String → Option α
  | [], _ => none
  | kv :: rest, k => if kv.1 = k then some kv.2 else jsGet rest k

/-- `map.has(k)` / `o.hasOwnProperty(k)`. -/
def jsHas {α : Type} (o : List (String × α)) (k : String) : Bool :=
  (jsGet o k).isSome

/-- Property write `o[k] = v` / `map.set(k, v)`: updates an existing key in
place (keeping its position in insertion order), else appends. -/
def jsSet {α : Type} : List (String × α) → String → α → List (String × α)
  | [], k, v => [(k, v)]
  | kv :: rest, k, v => if kv.1 = k then (k, v) :: rest else kv :: jsSet rest k v

/-- Canonical array-index keys (all digits, no leading zero, below
`2^32 - 1`), which JS object enumeration lists before other keys. -/
def isArrayIdxKey (s : String) : Bool :=
  !s.data.isEmpty && s.data.all isDigitChar
    && (s == "0" || s.data.head? != some '0')
    && decide (digitsToNat s.data < 4294967295)

/-- Insertion of one entry into a list sorted by numeric key value. -/
def insertByNatKey {α : Type} (x : String × α) :
    List (String × α) → List (String × α)
  | [] => [x]
  | y :: rest =>
      if digitsToNat x.1.data ≤ digitsToNat y.1.data then x :: y :: rest
      else y :: insertByNatKey x rest

/-- Insertion sort by numeric key value. -/
def sortByNatKey {α : Type} : List (String × α) → List (String × α)
  | [] => []
  | x :: rest => insertByNatKey x (sortByNatKey rest)

/-- `Object.entries(o)` enumeration order: array-index keys first in
ascending numeric order, then the remaining keys in insertion order. -/
def jsEntries {α : Type} (o : List (String × α)) : List (String × α) :=
  sortByNatKey (o.filter (fun kv => isArrayIdxKey kv.1))
    ++ o.filter (fun kv => !isArrayIdxKey kv.1)

/-! ## The global-replace scanner

`String.prototype.replace` with a global regex `\{(C+)\}` (for a character
class `C`) scans left to right; at each `{` it takes the maximal run of
`C`-characters and requires a `}`; on success the callback's result is
emitted verbatim and scanning resumes after the match; on failure the
scanner advances one character.  `scanSt` is that scanner as a structural
state machine: the state `some run` means a `{` has been consumed together
with the (reversed) run of `C`-characters after it. -/

/-- Callback result for a matched token: the replacement value, or the
token left verbatim when the callback returns the match itself. -/
def tokenHit (f : String → Option String) (run : List Char) : List Char :=
  match f ⟨run.reverse⟩ with
  | some v => v.data
  | none => lbrace :: (run.reverse ++ [rbrace])

/-- The replace scanner (state machine form, see section comment). -/
def scanSt (isC : Char → Bool) (f : String → Option String) :
    Option (List Char) → List Char → List Char
  | none, [] => []
  | some run, [] => lbrace :: run.reverse
  | none, c :: rest =>
      if c = lbrace then scanSt isC f (some []) rest
      else c :: scanSt isC f none rest
  | some run, c :: rest =>
      if c = rbrace then
        if run.isEmpty then lbrace :: c :: scanSt isC f none rest
        else tokenHit f run ++ scanSt isC f none rest
      else if isC c then scanSt isC f (some (c :: run)) rest
      else if c = lbrace then
        (lbrace :: run.reverse) ++ scanSt isC f (some []) rest
      else (lbrace :: run.reverse) ++ (c :: scanSt isC f none rest)

/-- `text.replace(/\{(C+)\}/g, cb)`: `f` returning `none` models the
callback returning the match itself (token left verbatim). -/
def scanTokens (isC : Char → Bool) (f : String → Option String)
    (l : List Char) : List Char :=
  scanSt isC f none l

/-- A decomposition item of a template: a literal character or a
`{token}` occurrence. -/
inductive Chunk : Type where
  | lit : Char → Chunk
  | tok : String → Chunk
deriving DecidableEq

/-- Tokenization underlying the scanner: same traversal as `scanSt`, but
recording the decomposition instead of substituting.  Independent of any
replacement callback. -/
def tokSt (isC : Char → Bool) : Option (List Char) → List Char → List Chunk
  | none, [] => []
  | some run, [] => Chunk.lit lbrace :: run.reverse.map Chunk.lit
  | none, c :: rest =>
      if c = lbrace then tokSt isC (some []) rest
      else Chunk.lit c :: tokSt isC none rest
  | some run, c :: rest =>
      if c = rbrace then
        if run.isEmpty then Chunk.lit lbrace :: Chunk.lit c :: tokSt isC none rest
        else Chunk.tok ⟨run.reverse⟩ :: tokSt isC none rest
      else if isC c then tokSt isC (some (c :: run)) rest
      else if c = lbrace then
        (Chunk.lit lbrace :: run.reverse.map Chunk.lit) ++ tokSt isC (some []) rest
      else (Chunk.lit lbrace :: run.reverse.map Chunk.lit)
        ++ (Chunk.lit c :: tokSt isC none rest)

/-- Decomposition of a whole template. -/
def tokenizeCh (isC : Char → Bool) (l : List Char) : List Chunk :=
  tokSt isC none l

/-- Rendering a decomposition: literals verbatim, each token through the
callback (verbatim when the callback declines). -/
def renderTokens (f : String → Option String) : List Chunk → List Char
  | [] => []
  | Chunk.lit c :: rest => c :: renderTokens f rest
  | Chunk.tok n :: rest =>
      (match f n with
       | some v => v.data
       | none => lbrace :: (n.data ++ [rbrace])) ++ renderTokens f rest

/-! ## TextInterpolator -/

/-- The fixed alias table of `interpolateArrayParams`
(`namedMappings` in the source). -/
def aliasIndex (name : String) : Option Nat :=
  if name = "user" then some 0
  else if name = "username" then some 0
  else if name = "name" then some 0
  else if name = "server" then some 1
  else if name = "servername" then some 1
  else if name = "guild" then some 1
  else if name = "channel" then some 2
  else if name = "level" then some 3
  else if name = "value" then some 4
  else none

/-- Callback of the `\{(\d+)\}` pass: `params[parseInt(index)]` when
defined, else the match verbatim. -/
def numLookup (params : List String) (name : String) : Option String :=
  params[digitsToNat name.data]?

/-- The `key=value` scan over positional entries: first entry containing
`=` whose key (before the first `=`, lowercased) equals the token name;
its value is the segment between the first and second `=`
(`split('=', 2)`). -/
def eqScan (lname : String) : List String → Option String
  | [] => none
  | p :: rest =>
      if p.data.contains '=' then
        let k := p.data.takeWhile (fun c => c != '=')
        let r := (p.data.dropWhile (fun c => c != '=')).tail
        if lowerStr ⟨k⟩ = lname then some ⟨r.takeWhile (fun c => c != '=')⟩
        else eqScan lname rest
      else eqScan lname rest

/-- Callback of the `\{(\w+)\}` pass of `interpolateArrayParams`: alias
table first (out-of-range index leaves the token verbatim, without
falling through), else the `key=value` scan. -/
def arrayWordLookup (params : List String) (name : String) : Option String :=
  let l := lowerStr name
  match aliasIndex l with
  | some i => params[i]?
  | none => eqScan l params

/-- Callback of `interpolateNamedParams`: exact lowercased-key property
first (`hasOwnProperty`), else the first entry in enumeration order whose
lowercased key matches. -/
def namedLookup (params : List (String × String)) (name : String) :
    Option String :=
  let l := lowerStr name
  match jsGet params l with
  | some v => some v
  | none => ((jsEntries params).find? (fun kv => lowerStr kv.1 == l)).map (·.2)

/-- `TextInterpolator.interpolateNamedParams`. -/
def interpolateNamedParams (text : String) (params : List (String × String)) :
    String :=
  ⟨scanTokens isWordChar (namedLookup params) text.data⟩

/-- `TextInterpolator.interpolateArrayParams`: empty array returns the
text; otherwise the numeric pass `\{(\d+)\}`, then the alias/name pass
`\{(\w+)\}` on its output. -/
def interpolateArrayParams (text : String) (params : List String) : String :=
  if params.isEmpty then text
  else
    ⟨scanTokens isWordChar (arrayWordLookup params)
      (scanTokens isDigitChar (numLookup params) text.data)⟩

/-- The dynamic shape of the `params` argument of `interpolate`:
`null`/`undefined`, a plain object, or an array. -/
inductive JsParams : Type where
  | null : JsParams
  | obj : List (String × String) → JsParams
  | arr : List String → JsParams
deriving DecidableEq

/-- `TextInterpolator.interpolate`: falsy params return the text; a
non-array object dispatches to the named branch; an array to the
positional branch. -/
def interpolate (text : String) (params : JsParams) : String :=
  match params with
  | JsParams.null => text
  | JsParams.obj es => interpolateNamedParams text es
  | JsParams.arr xs => interpolateArrayParams text xs

/-! ## parseArguments -/

/-- `s.replace('?', '')` with a plain-string pattern: removes only the
first occurrence. -/
def removeFirst (c : Char) : List Char → List Char
  | [] => []
  | x :: rest => if x = c then rest else x :: removeFirst c rest

/-- First segment of `split(sep, 2)`: the text before the first
separator. -/
def firstSeg (c : Char) (l : List Char) : List Char :=
  l.takeWhile (fun x => x != c)

/-- Second segment of `split(sep, 2)`: the text between the first and
second separator (the remainder after a second separator is discarded by
the `limit` argument). -/
def secondSeg (c : Char) (l : List Char) : List Char :=
  ((l.dropWhile (fun x => x != c)).tail).takeWhile (fun x => x != c)

/-- The language-code test `/^[a-z]{2,3}$/i`. -/
def isLangToken (l : List Char) : Bool :=
  (l.length == 2 || l.length == 3) && l.all isAlphaChar

/-- Result of `TextInterpolator.parseArguments`: `{ locale, params,
forceLocale }` where `params` is one plain object holding both named and
numeric-index entries. -/
structure ParsedArgs : Type where
  locale : Option String
  params : List (String × String)
  forceLocale : Bool
deriving DecidableEq

/-- Classification of a single raw argument (one iteration of the
`parseArguments` loop). -/
def classifyArg (st : ParsedArgs) (arg : String) : ParsedArgs :=
  if arg = "" then st
  else
    let t := trimCh arg.data
    if t.contains ':' then
      let k := firstSeg ':' t
      let v := secondSeg ':' t
      if k.isEmpty || v.isEmpty then st
      else { st with params := jsSet st.params ⟨trimCh k⟩ ⟨trimCh v⟩ }
    else if t.contains '|' then
      let stripped := trimCh (removeFirst '?' (firstSeg '|' t))
      let loc := if stripped.isEmpty then trimCh (secondSeg '|' t) else stripped
      { st with locale := some ⟨loc⟩, forceLocale := true }
    else if isLangToken t then
      { st with locale := some ⟨t⟩, forceLocale := true }
    else
      { st with params := jsSet st.params (toString st.params.length) ⟨t⟩ }

/-- The `parseArguments` loop over the raw argument list. -/
def parseArgumentsL (st : ParsedArgs) : List String → ParsedArgs
  | [] => st
  | a :: rest => parseArgumentsL (classifyArg st a) rest

/-- `TextInterpolator.parseArguments`. -/
def parseArguments (args : List String) : ParsedArgs :=
  parseArgumentsL ⟨none, [], false⟩ args

/-! ## LocaleLoader -/

/-- A translation-catalog tree: string leaves and nested mapping nodes. -/
inductive JsonTree : Type where
  | str : String → JsonTree
  | obj : List (String × JsonTree) → JsonTree

/-- The loader's `Map` from language code to catalog tree, in insertion
order. -/
abbrev LocaleStore : Type := List (String × JsonTree)

/-- `key.split('.')` on a character list: split at every separator,
keeping empty segments. -/
def splitCh (sep : Char) : List Char → List (List Char)
  | [] => [[]]
  | c :: rest =>
      if c = sep then [] :: splitCh sep rest
      else
        match splitCh sep rest with
        | [] => [[c]]
        | s :: ss => (c :: s) :: ss

/-- Joining path segments with `.` (inverse direction of `splitCh`),
used to state the round-trip property for dotted keys. -/
def intercalateDots : List (List Char) → List Char
  | [] => []
  | [s] => s
  | s :: r :: rest => s ++ '.' :: intercalateDots (r :: rest)

/-- A dotted key built from segments. -/
def joinDots (segs : List String) : String :=
  ⟨intercalateDots (segs.map String.data)⟩

/-- The dotted-path walk of `getFromLocale`: descend through mapping
nodes by segment; a missing segment, a traversal through a leaf, or a
non-string final value yields `none`. -/
def walkTree : List String → JsonTree → Option String
  | [], JsonTree.str s => some s
  | [], JsonTree.obj _ => none
  | _ :: _, JsonTree.str _ => none
  | k :: ks, JsonTree.obj fields =>
      match jsGet fields k with
      | some t => walkTree ks t
      | none => none

/-- `LocaleLoader.getFromLocale(key, locale)`. -/
def getFromLocale (store : LocaleStore) (key : String) (locale : String) :
    Option String :=
  match jsGet store locale with
  | none => none
  | some tree =>
      walkTree ((splitCh '.' key.data).map (fun l => (⟨l⟩ : String))) tree

/-- `LocaleLoader.getAvailableLocales()`: the codes in insertion order. -/
def getAvailableLocales (store : LocaleStore) : List String :=
  store.map Prod.fst

/-- `LocaleLoader.getFirstAvailableLocale()`. -/
def getFirstAvailableLocale (store : LocaleStore) : Option String :=
  (getAvailableLocales store).head?

/-- `LocaleLoader.addLocale(locale, data)`: `Map.set`. -/
def addLocale (store : LocaleStore) (locale : String) (data : JsonTree) :
    LocaleStore :=
  jsSet store locale data

/-- `LocaleLoader.hasLocale(locale)`. -/
def hasLocale (store : LocaleStore) (locale : String) : Bool :=
  jsHas store locale

/-! ## AoiLocale.getText and the $locale pipeline -/

/-- JS falsiness of a string-or-null value (`!text`): null or the empty
string. -/
def jsFalsyStrOpt : Option String → Bool
  | none => true
  | some s => s.isEmpty

/-- `AoiLocale.getText(key, locale, params)`: look up in `locale`; if
falsy, retry with the first available locale when that is truthy and
different; if still falsy return the key; else interpolate. -/
def getText (store : LocaleStore) (key : String) (locale : Option String)
    (params : JsParams) : String :=
  let text0 :=
    match locale with
    | some l => getFromLocale store key l
    | none => none
  let text1 :=
    if jsFalsyStrOpt text0 then
      match getFirstAvailableLocale store with
      | some fl =>
          if fl ≠ "" ∧ some fl ≠ locale then getFromLocale store key fl
          else text0
      | none => text0
    else text0
  if jsFalsyStrOpt text1 then key else interpolate (text1.getD "") params

/-- Refinement reference for the spec's claim that the `$locale` path
always interpolates through the named-parameter branch: the same lookup
chain as `getText`, but ending in `interpolateNamedParams` directly. -/
def getTextNamedSpec (store : LocaleStore) (key : String)
    (locale : Option String) (es : List (String × String)) : String :=
  let text0 :=
    match locale with
    | some l => getFromLocale store key l
    | none => none
  let text1 :=
    if jsFalsyStrOpt text0 then
      match getFirstAvailableLocale store with
      | some fl =>
          if fl ≠ "" ∧ some fl ≠ locale then getFromLocale store key fl
          else text0
      | none => text0
    else text0
  if jsFalsyStrOpt text1 then key else interpolateNamedParams (text1.getD "") es

/-- The `$locale` function body of `FunctionManager.addLocaleFunction`,
after argument splitting: `none` models the `Key not specified` error
return; `detected` abstracts the awaited `detectUserLanguage` result. -/
def localeFuncResult (store : LocaleStore) (detected : Option String)
    (key : String) (args : List String) : Option String :=
  if (trimCh key.data).isEmpty then none
  else
    let pa := parseArguments args
    let locale0 := if pa.forceLocale then pa.locale else detected
    let locale1 :=
      if jsFalsyStrOpt locale0 then getFirstAvailableLocale store else locale0
    some (getText store ⟨trimCh key.data⟩ locale1 (JsParams.obj pa.params))

/-- The `$locale` pipeline with the interpolation step replaced by the
named-parameter branch (refinement reference, see `getTextNamedSpec`). -/
def localeFuncResultNamedSpec (store : LocaleStore) (detected : Option String)
    (key : String) (args : List String) : Option String :=
  if (trimCh key.data).isEmpty then none
  else
    let pa := parseArguments args
    let locale0 := if pa.forceLocale then pa.locale else detected
    let locale1 :=
      if jsFalsyStrOpt locale0 then getFirstAvailableLocale store else locale0
    some (getTextNamedSpec store ⟨trimCh key.data⟩ locale1 pa.params)

/-! ## LanguageDetector -/

/-- The per-call context fields read by `executeLanguageSource`
(already resolved to strings, `''` when absent). -/
structure CallCtx : Type where
  userId : String
  guildId : String
  channelId : String
deriving DecidableEq

/-- Detector configuration: whether a custom hook is configured and the
outcome of calling it (`Except.error` models the hook throwing), the two
source templates (`none` models a falsy value), and the guild-fallback
flag. -/
structure DetectConfig : Type where
  customConfigured : Bool
  hookResult : Except Unit (Option String)
  languageSource : Option String
  fallbackToGuildLanguage : Bool
  guildLanguageSource : Option String

/-- External behavior reached by `executeLanguageSource`: the host
interpreter (which may throw, or resolve with a falsy or truthy
`result.code`), and the direct-database fallback tables (whose `all`
calls may also throw). -/
structure SourceEnv : Type where
  interp : String → Except Unit (Option String)
  dbPresent : Bool
  userTable : Bool
  userDb : String → String → Except Unit (Option String)
  guildTable : Bool
  guildDb : String → String → Except Unit (Option String)

/-- The three sequential global literal replaces of `{userId}`,
`{guildId}`, `{channelId}` building the command string. -/
def substSource (source : String) (ctx : CallCtx) : String :=
  let p1 := scanTokens isWordChar
    (fun n => if n = "userId" then some ctx.userId else none) source.data
  let p2 := scanTokens isWordChar
    (fun n => if n = "guildId" then some ctx.guildId else none) p1
  ⟨scanTokens isWordChar
    (fun n => if n = "channelId" then some ctx.channelId else none) p2⟩

/-- `value.replace(/\{[^}]*\}/g, '')` as a structural state machine
(state: the consumed characters since an unmatched `{`, reversed). -/
def stripSt : Option (List Char) → List Char → List Char
  | none, [] => []
  | some pend, [] => lbrace :: pend.reverse
  | none, c :: rest =>
      if c = lbrace then stripSt (some []) rest else c :: stripSt none rest
  | some pend, c :: rest =>
      if c = rbrace then stripSt none rest else stripSt (some (c :: pend)) rest

/-- Placeholder-residue removal used on interpreter results. -/
def stripBraces (l : List Char) : List Char :=
  stripSt none l

/-- Consume a literal pattern at the head of a list. -/
def stripStart : List Char → List Char → Option (List Char)
  | [], l => some l
  | _ :: _, [] => none
  | p :: ps, c :: cs => if c = p then stripStart ps cs else none

/-- Substring test (`command.includes(pat)`). -/
def containsSub (pat : List Char) : List Char → Bool
  | [] => pat.isEmpty
  | c :: rest => (stripStart pat (c :: rest)).isSome || containsSub pat rest

/-- One attempt of the regex `tag([^;]+);([^\]]+)\]` at a fixed start
position. -/
def tryMatchVar (tag : List Char) (l : List Char) : Option (String × String) :=
  match stripStart tag l with
  | none => none
  | some r1 =>
      let name := r1.takeWhile (fun c => c != ';')
      if name.isEmpty then none
      else
        match (r1.dropWhile (fun c => c != ';')) with
        | [] => none
        | _ :: r3 =>
            let tid := r3.takeWhile (fun c => c != ']')
            if tid.isEmpty then none
            else
              match (r3.dropWhile (fun c => c != ']')) with
              | [] => none
              | _ :: _ => some (⟨name⟩, ⟨tid⟩)

/-- Unanchored search of `command.match(/tag([^;]+);([^\]]+)\]/)`:
first start position (left to right) where the pattern matches. -/
def matchVarFrom (tag : List Char) : List Char → Option (String × String)
  | [] => none
  | c :: rest =>
      match tryMatchVar tag (c :: rest) with
      | some r => some r
      | none => matchVarFrom tag rest

/-- One database fallback branch of the catch handler: regex-parse the
command, and when the client database and the expected table are present,
return the queried value if the `all` call succeeds with a truthy value. -/
def dbFallback (tag : List Char) (tablePresent : Bool)
    (dbAll : String → String → Except Unit (Option String))
    (dbPresent : Bool) (command : String) : Option String :=
  if containsSub tag command.data then
    match matchVarFrom tag command.data with
    | some nameId =>
        if dbPresent ∧ tablePresent then
          match dbAll nameId.1 nameId.2 with
          | Except.ok (some v) => if v.isEmpty then none else some v
          | _ => none
        else none
    | none => none
  else none

/-- `LanguageDetector.executeLanguageSource`: substitute the context into
the template, run the interpreter; on success validate the
residue-stripped trimmed value; on interpreter exception fall back to the
`getUserVar[...]` then `getServerVar[...]` database branches; any other
failure yields `none` (the function never throws). -/
def executeLanguageSource (env : SourceEnv) (ctx : CallCtx)
    (source : String) : Option String :=
  let command := substSource source ctx
  match env.interp command with
  | Except.ok res =>
      match res with
      | some code =>
          if code.isEmpty then none
          else
            let value : String := ⟨trimCh (stripBraces code.data)⟩
            if value ≠ command ∧ ¬value.isEmpty ∧ value ≠ "undefined"
                ∧ value ≠ "null" ∧ value ≠ " "
            then some value
            else none
      | none => none
  | Except.error _ =>
      match dbFallback "getUserVar[".data env.userTable env.userDb
          env.dbPresent command with
      | some v => some v
      | none =>
          dbFallback "getServerVar[".data env.guildTable env.guildDb
            env.dbPresent command

/-- Validation applied to each stage's candidate:
`cand && locales.hasLocale(cand)`. -/
def validateCand (store : LocaleStore) (cand : Option String) : Option String :=
  match cand with
  | some s => if ¬s.isEmpty ∧ hasLocale store s then some s else none
  | none => none

/-- `LanguageDetector.detectUserLanguage`: custom hook, then user source,
then guild source, validating each candidate against the store.  The
single try/catch wraps the whole chain, so a hook exception returns
`null` directly; `executeLanguageSource` cannot throw. -/
def detectUserLanguage (cfg : DetectConfig) (env : SourceEnv) (ctx : CallCtx)
    (store : LocaleStore) : Option String :=
  match (if cfg.customConfigured then cfg.hookResult else Except.ok none) with
  | Except.error _ => none
  | Except.ok hookVal =>
      match validateCand store hookVal with
      | some l => some l
      | none =>
          let s2 :=
            match cfg.languageSource with
            | some src =>
                if src.isEmpty then none
                else validateCand store (executeLanguageSource env ctx src)
            | none => none
          match s2 with
          | some l => some l
          | none =>
              match cfg.guildLanguageSource with
              | some gsrc =>
                  if cfg.fallbackToGuildLanguage ∧ ¬gsrc.isEmpty then
                    validateCand store (executeLanguageSource env ctx gsrc)
                  else none
              | none => none

/-! ## Concrete fixtures used by counterexamples and witnesses -/

/-- A small English catalog tree. -/
def enTree : JsonTree :=
  JsonTree.obj [("hello", JsonTree.str "Hello {user}!"),
    ("deep", JsonTree.obj [("x", JsonTree.str "dx")])]

/-- A small Turkish catalog tree. -/
def trTree : JsonTree :=
  JsonTree.obj [("hello", JsonTree.str "Merhaba {user}!")]

/-- A store loaded with `en` first, then `tr`. -/
def twoStore : LocaleStore := addLocale (addLocale [] "en" enTree) "tr" trTree

/-- Detector configuration with a throwing custom hook and both source
templates present (their defaults). -/
def cfg8 : DetectConfig :=
  ⟨true, Except.error (), some "getUserVar[language;{userId}]", true,
    some "getServerVar[language;{guildId}]"⟩

/-- Detector configuration without a custom hook. -/
def cfgW : DetectConfig :=
  ⟨false, Except.ok none, some "getUserVar[language;{userId}]", true,
    some "getServerVar[language;{guildId}]"⟩

/-- Environment whose interpreter resolves every command to `"en"` and
that has no client database. -/
def env8 : SourceEnv :=
  ⟨fun _ => Except.ok (some "en"), false, false, fun _ _ => Except.ok none,
    false, fun _ _ => Except.ok none⟩

/-- Environment whose interpreter throws on every command and that has no
client database. -/
def envErr8 : SourceEnv :=
  ⟨fun _ => Except.error (), false, false, fun _ _ => Except.ok none,
    false, fun _ _ => Except.ok none⟩

/-- A call context with concrete ids. -/
def ctx8 : CallCtx := ⟨"100", "200", "300"⟩

/-- A one-language store containing `en`. -/
def store8 : LocaleStore := [("en", JsonTree.obj [("hello", JsonTree.str "hi")])]

/-! ## Helper lemmas -/

theorem strEta (s : String) : String.mk s.data = s := by cases s; rfl

theorem renderTokens_append (f : String → Option String)
    (a b : List Chunk) :
    renderTokens f (a ++ b) = renderTokens f a ++ renderTokens f b := by
  induction a with
  | nil => rfl
  | cons ch rest ih =>
      cases ch with
      | lit c => simp [renderTokens, ih]
      | tok n => simp [renderTokens, ih]

theorem renderTokens_lits (f : String → Option String) (xs : List Char) :
    renderTokens f (xs.map Chunk.lit) = xs := by
  induction xs with
  | nil => rfl
  | cons c rest ih => simp [renderTokens, ih]

theorem renderTokens_lits_rev (f : String → Option String) (xs : List Char) :
    renderTokens f ((xs.map Chunk.lit).reverse) = xs.reverse := by
  rw [← List.map_reverse]
  exact renderTokens_lits f xs.reverse

theorem scanSt_eq_render (isC : Char → Bool) (f : String → Option String) :
    ∀ (l : List Char) (st : Option (List Char)),
      scanSt isC f st l = renderTokens f (tokSt isC st l) := by
  intro l
  induction l with
  | nil =>
      intro st
      cases st with
      | none => rfl
      | some run =>
          simp [scanSt, tokSt, renderTokens, renderTokens_lits,
            renderTokens_lits_rev]
  | cons c rest ih =>
      intro st
      cases st with
      | none =>
          simp only [scanSt, tokSt]
          split_ifs with h
          · exact ih (some [])
          · simp [renderTokens, ih none]
      | some run =>
          simp only [scanSt, tokSt]
          split_ifs with h1 h2 h3 h4
          · simp [renderTokens, ih none]
          · cases hf : f ⟨run.reverse⟩ <;>
              simp [tokenHit, renderTokens, hf, ih none]
          · exact ih (some (c :: run))
          · simp [renderTokens_append, renderTokens, renderTokens_lits,
              renderTokens_lits_rev, ih (some [])]
          · simp [renderTokens_append, renderTokens, renderTokens_lits,
              renderTokens_lits_rev, ih none]

theorem scanSt_const_none (isC : Char → Bool) (f : String → Option String)
    (hf : ∀ n, f n = none) :
    ∀ (l : List Char) (st : Option (List Char)),
      scanSt isC f st l =
        (match st with
         | none => l
         | some run => lbrace :: (run.reverse ++ l)) := by
  intro l
  induction l with
  | nil =>
      intro st
      cases st with
      | none => rfl
      | some run => simp [scanSt]
  | cons c rest ih =>
      intro st
      cases st with
      | none =>
          simp only [scanSt]
          split_ifs with h
          · simpa [h] using ih (some [])
          · simp [ih none]
      | some run =>
          simp only [scanSt]
          split_ifs with h1 h2 h3 h4
          · have he : run = [] := by simpa using h2
            simp [ih none, h1, he]
          · simp [tokenHit, hf, ih none, h1]
          · simpa [List.append_assoc] using ih (some (c :: run))
          · simpa [h4] using ih (some [])
          · simp [ih none]

/-! ## Claim theorems: interpolation -/

/-- C10: for every template string, `interpolate` called with a null or
undefined `params` argument returns the template completely unchanged,
with all placeholder tokens left verbatim. -/
theorem null_params_unchanged (text : String) :
    interpolate text JsParams.null = text := rfl

/-- C3: interpolating `"Hello {user}!"` yields `"Hello Bob!"` with named
params `{user: "Bob"}`, yields `"Hello Bob!"` with the positional list
`["Bob"]` (the `{user}` token resolving through the alias table to index
0), and is returned unchanged with no params; with empty or absent
parameter sets every token is left verbatim and no error is raised
(the function is total). -/
theorem hello_user_interpolation_cases :
    interpolate "Hello {user}!" (JsParams.obj [("user", "Bob")]) = "Hello Bob!"
    ∧ interpolate "Hello {user}!" (JsParams.arr ["Bob"]) = "Hello Bob!"
    ∧ interpolate "Hello {user}!" JsParams.null = "Hello {user}!"
    ∧ (∀ text : String,
        interpolate text JsParams.null = text
        ∧ interpolate text (JsParams.obj []) = text
        ∧ interpolate text (JsParams.arr []) = text) := by
  refine ⟨by decide, by decide, by decide, fun text => ⟨rfl, ?_, rfl⟩⟩
  have hf : ∀ n, namedLookup [] n = none := by
    intro n
    simp [namedLookup, jsEntries, jsGet, sortByNatKey]
  have h := scanSt_const_none isWordChar (namedLookup []) hf text.data none
  simp only [interpolate, interpolateNamedParams, scanTokens]
  rw [h]

/-- C4 counterexample: the claim says a positional value containing an
alias token is inserted verbatim and never replaced by a later pass, so
`interpolateArrayParams "{0}" ["{server}", "B"]` would have to return
`"{server}"`; the numeric pass substitutes `"{server}"` and the
subsequent alias pass rescans it, giving `"B"`. -/
theorem numeric_pass_value_rescanned_cex :
    interpolateArrayParams "{0}" ["{server}", "B"] = "B"
    ∧ interpolateArrayParams "{0}" ["{server}", "B"] ≠ "{server}" := by
  decide

/-- C4 (amended): each single replacement pass is non-recursive — it
factors through a tokenization of its own input that is independent of
the substitution callback, so values substituted in that pass are never
rescanned by it.  `interpolateNamedParams` is one such pass.
`interpolateArrayParams`, however, chains two passes: its alias/name pass
tokenizes the OUTPUT of the numeric pass, so a value substituted by the
numeric pass is rescanned (exactly once) by the alias/name pass. -/
theorem single_pass_no_rescan :
    (∀ (isC : Char → Bool) (f : String → Option String) (l : List Char),
        scanTokens isC f l = renderTokens f (tokenizeCh isC l))
    ∧ (∀ (text : String) (ps : List (String × String)),
        interpolateNamedParams text ps
          = ⟨renderTokens (namedLookup ps) (tokenizeCh isWordChar text.data)⟩)
    ∧ (∀ (text x : String) (xs : List String),
        interpolateArrayParams text (x :: xs)
          = ⟨renderTokens (arrayWordLookup (x :: xs))
              (tokenizeCh isWordChar
                (renderTokens (numLookup (x :: xs))
                  (tokenizeCh isDigitChar text.data)))⟩) := by
  have main : ∀ (isC : Char → Bool) (f : String → Option String)
      (l : List Char), scanTokens isC f l = renderTokens f (tokenizeCh isC l) :=
    fun isC f l => scanSt_eq_render isC f l none
  refine ⟨main, fun text ps => ?_, fun text x xs => ?_⟩
  · simp only [interpolateNamedParams, main]
  · simp only [interpolateArrayParams, List.isEmpty_cons, main]
    simp

/-! ## Claim theorems: parseArguments -/

theorem parseArgumentsL_append (st : ParsedArgs) (xs ys : List String) :
    parseArgumentsL st (xs ++ ys) = parseArgumentsL (parseArgumentsL st xs) ys := by
  induction xs generalizing st with
  | nil => rfl
  | cons a rest ih => simpa [parseArgumentsL] using ih (classifyArg st a)

theorem parseArguments_append_single (pre : List String) (a : String) :
    parseArguments (pre ++ [a]) = classifyArg (parseArguments pre) a := by
  unfold parseArguments
  rw [parseArgumentsL_append]
  rfl

/-- C5 counterexample: the claim predicts that `"a:b:c"` stores the value
`"b:c"` (the entire remainder) and that `"a: :b"` is dropped (its value
is empty after trimming); the code stores `("a", "b")` — `split(':', 2)`
discards the remainder after the second colon — and stores `("a", "")` —
the emptiness test runs before trimming. -/
theorem colon_split_cex :
    (parseArguments ["a:b:c"]).params = [("a", "b")]
    ∧ (parseArguments ["a: :b"]).params = [("a", "")] := by
  decide

/-- C5 (amended): for every non-empty argument whose trimmed form
contains a colon, the parser splits the trimmed argument as
`split(':', 2)`: the key is the text before the first colon and the value
is the text between the first and second colon (any remainder after a
second colon is discarded).  The argument is dropped exactly when the key
or the value is the empty string BEFORE trimming; otherwise the pair is
stored with key and value trimmed (so a whitespace-only value part is
stored as the empty string).  The language fields are untouched. -/
theorem colon_argument_characterization (pre : List String) (a : String)
    (h1 : a ≠ "") (h2 : (trimCh a.data).contains ':' = true) :
    parseArguments (pre ++ [a]) =
      (if (firstSeg ':' (trimCh a.data)).isEmpty
          || (secondSeg ':' (trimCh a.data)).isEmpty
       then parseArguments pre
       else { parseArguments pre with
              params := jsSet (parseArguments pre).params
                ⟨trimCh (firstSeg ':' (trimCh a.data))⟩
                ⟨trimCh (secondSeg ':' (trimCh a.data))⟩ }) := by
  have h2m : ':' ∈ trimCh a.data := by simpa using h2
  rw [parseArguments_append_single]
  simp [classifyArg, h1, h2m]

theorem colon_argument_characterization_witness :
    parseArguments ([] ++ ["x:y:z"]) = ⟨none, [("x", "y")], false⟩ := by
  rw [colon_argument_characterization [] "x:y:z" (by decide) (by decide)]
  decide

/-- C6 counterexample: in `["x", "a:b", "y"]` the claim assigns the
second positional argument the index 1 (the count of named entries); the
code assigns the index from the total size of the shared params object,
so `"y"` is stored under key `"2"` and no entry has key `"1"`. -/
theorem positional_index_cex :
    jsGet (parseArguments ["x", "a:b", "y"]).params "1" = none
    ∧ jsGet (parseArguments ["x", "a:b", "y"]).params "2" = some "y" := by
  decide

/-- C6 (amended): an argument classified as positional is stored in the
single shared params object under a key equal to the CURRENT TOTAL number
of entries of that object — named and numeric-index entries combined, not
the count of named entries alone — so in `[positional, named, positional]`
the second positional receives index 2. -/
theorem positional_index_characterization (pre : List String) (a : String)
    (h1 : a ≠ "")
    (h2 : (trimCh a.data).contains ':' = false)
    (h3 : (trimCh a.data).contains '|' = false)
    (h4 : isLangToken (trimCh a.data) = false) :
    parseArguments (pre ++ [a]) =
      { parseArguments pre with
        params := jsSet (parseArguments pre).params
          (toString (parseArguments pre).params.length) ⟨trimCh a.data⟩ } := by
  have h2m : ':' ∉ trimCh a.data := by simpa using h2
  have h3m : '|' ∉ trimCh a.data := by simpa using h3
  rw [parseArguments_append_single]
  simp [classifyArg, h1, h2m, h3m, h4]

theorem positional_index_characterization_witness :
    parseArguments ([] ++ ["hello world"])
      = ⟨none, [("0", "hello world")], false⟩ := by
  rw [positional_index_characterization [] "hello world"
    (by decide) (by decide) (by decide) (by decide)]
  decide

/-! ## Store lemmas -/

theorem jsGet_jsSet_self {α : Type} (o : List (String × α)) (k : String)
    (v : α) : jsGet (jsSet o k v) k = some v := by
  induction o with
  | nil => simp [jsSet, jsGet]
  | cons kv rest ih =>
      by_cases h : kv.1 = k <;> simp [jsSet, jsGet, h, ih]

theorem keys_jsSet_of_has {α : Type} (o : List (String × α)) (k : String)
    (v : α) (h : jsHas o k = true) :
    (jsSet o k v).map Prod.fst = o.map Prod.fst := by
  induction o with
  | nil => simp [jsHas, jsGet] at h
  | cons kv rest ih =>
      by_cases hk : kv.1 = k
      · simp [jsSet, hk]
      · have hr : jsHas rest k = true := by
          simpa [jsHas, jsGet, hk] using h
        simp [jsSet, hk, ih hr]

theorem jsGet_eq_none_of_not_mem {α : Type} (o : List (String × α))
    (k : String) (h : k ∉ o.map Prod.fst) : jsGet o k = none := by
  induction o with
  | nil => rfl
  | cons kv rest ih =>
      simp only [List.map_cons, List.mem_cons] at h
      push_neg at h
      have hne : ¬kv.1 = k := fun he => h.1 he.symm
      simp [jsGet, hne, ih h.2]

/-! ## Claim theorems: the Catalog Store -/

/-- C7 counterexample: re-adding the first-loaded language `en` of the
two-language store `[en, tr]` does not move it to the end: the first
available locale is still `en` (the claim predicts `tr`) and the exposed
order is still `["en", "tr"]` (the claim predicts the re-upserted code
last). -/
theorem upsert_keeps_position_cex :
    getFirstAvailableLocale (addLocale twoStore "en" enTree) = some "en"
    ∧ getFirstAvailableLocale (addLocale twoStore "en" enTree) ≠ some "tr"
    ∧ getAvailableLocales (addLocale twoStore "en" enTree) = ["en", "tr"] := by
  decide

/-- C7 (amended): `addLocale` on a pre-existing code updates the catalog
in place and PRESERVES the code's original position in the exposed order
(`Map.set` semantics): the available-locale order is unchanged, and in
particular `getFirstAvailableLocale` is unchanged — re-adding the
first-loaded language keeps it first. -/
theorem upsert_preserves_order (store : LocaleStore) (code : String)
    (tree : JsonTree) (h : hasLocale store code = true) :
    getAvailableLocales (addLocale store code tree) = getAvailableLocales store
    ∧ getFirstAvailableLocale (addLocale store code tree)
        = getFirstAvailableLocale store := by
  have hk : (jsSet store code tree).map Prod.fst = store.map Prod.fst :=
    keys_jsSet_of_has store code tree h
  refine ⟨hk, ?_⟩
  simp [getFirstAvailableLocale, getAvailableLocales, addLocale, hk]

theorem upsert_preserves_order_witness :
    hasLocale twoStore "en" = true
    ∧ getAvailableLocales (addLocale twoStore "en" trTree)
        = getAvailableLocales twoStore :=
  ⟨by decide, (upsert_preserves_order twoStore "en" trTree (by decide)).1⟩

theorem getFromLocale_of_not_avail (store : LocaleStore) (key : String)
    (l : String) (h : l ∉ getAvailableLocales store) :
    getFromLocale store key l = none := by
  unfold getFromLocale
  rw [jsGet_eq_none_of_not_mem store l h]

/-- C1: for every key absent (as a dotted-path string leaf) from every
loaded language's catalog, `getText` returns exactly the key string: the
lookup in the resolved language misses, the retry with the first
available language misses, and the key itself is returned — the
operation is total, so no exception is ever raised for a missing key. -/
theorem missing_key_returns_key (store : LocaleStore) (key : String)
    (locale : Option String) (params : JsParams)
    (h : ∀ l ∈ getAvailableLocales store, getFromLocale store key l = none) :
    getText store key locale params = key := by
  have hall : ∀ l, getFromLocale store key l = none := by
    intro l
    by_cases hm : l ∈ getAvailableLocales store
    · exact h l hm
    · exact getFromLocale_of_not_avail store key l hm
  unfold getText
  cases locale <;> cases hfa : getFirstAvailableLocale store <;>
    simp [jsFalsyStrOpt, hall]

theorem missing_key_returns_key_witness :
    (∀ l ∈ getAvailableLocales twoStore,
        getFromLocale twoStore "missing.key" l = none)
    ∧ getText twoStore "missing.key" (some "tr") JsParams.null
        = "missing.key" :=
  ⟨by decide, missing_key_returns_key twoStore "missing.key" (some "tr")
    JsParams.null (by decide)⟩

/-- C2: `parseArguments` returns its parameters as one plain (non-array)
object — in the embedding, always the `JsParams.obj` shape — so
`interpolate` on any object dispatches to the named-parameter branch, and
the whole `$locale` pipeline equals the pipeline with the interpolation
step replaced by `interpolateNamedParams` outright: the positional branch
`interpolateArrayParams` is never executed on that path. -/
theorem locale_pipeline_named_dispatch :
    (∀ (text : String) (es : List (String × String)),
        interpolate text (JsParams.obj es) = interpolateNamedParams text es)
    ∧ (∀ (store : LocaleStore) (detected : Option String) (key : String)
          (args : List String),
        localeFuncResult store detected key args
          = localeFuncResultNamedSpec store detected key args) :=
  ⟨fun _ _ => rfl, fun _ _ _ _ => rfl⟩

/-! ## Claim theorems: round-trip -/

theorem splitCh_no_sep (sep : Char) (l : List Char) (h : sep ∉ l) :
    splitCh sep l = [l] := by
  induction l with
  | nil => rfl
  | cons c rest ih =>
      have hc : ¬c = sep := fun he => h (he ▸ List.mem_cons_self c rest)
      have hr : sep ∉ rest := fun hm => h (List.mem_cons_of_mem c hm)
      simp [splitCh, hc, ih hr]

theorem splitCh_sep_append (sep : Char) (l1 l2 : List Char) (h : sep ∉ l1) :
    splitCh sep (l1 ++ sep :: l2) = l1 :: splitCh sep l2 := by
  induction l1 with
  | nil => simp [splitCh]
  | cons c rest ih =>
      have hc : ¬c = sep := fun he => h (he ▸ List.mem_cons_self c rest)
      have hr : sep ∉ rest := fun hm => h (List.mem_cons_of_mem c hm)
      simp [splitCh, hc, ih hr]

theorem splitCh_intercalate (ls : List (List Char)) (hne : ls ≠ [])
    (h : ∀ s ∈ ls, '.' ∉ s) :
    splitCh '.' (intercalateDots ls) = ls := by
  induction ls with
  | nil => exact absurd rfl hne
  | cons s rest ih =>
      cases rest with
      | nil =>
          simpa [intercalateDots] using
            splitCh_no_sep '.' s (h s (List.mem_cons_self s []))
      | cons r rest2 =>
          rw [intercalateDots,
            splitCh_sep_append '.' s _ (h s (List.mem_cons_self s _)),
            ih (by simp) (fun x hx => h x (List.mem_cons_of_mem s hx))]

theorem map_mk_data (segs : List String) :
    (segs.map String.data).map (fun l => (⟨l⟩ : String)) = segs := by
  induction segs with
  | nil => rfl
  | cons s rest ih => simp [ih, strEta]

/-- C9: round-trip through the Catalog Store: after
`addLocale code tree`, `hasLocale code` is true, and for every non-empty
dotted path of dot-free segments that reaches a string leaf of `tree`,
`getFromLocale` on the joined dotted key returns exactly that leaf's
original value. -/
theorem addLocale_roundtrip (store : LocaleStore) (code : String)
    (tree : JsonTree) (segs : List String) (v : String)
    (h1 : walkTree segs tree = some v)
    (h2 : ∀ s ∈ segs, '.' ∉ s.data)
    (h3 : segs ≠ []) :
    hasLocale (addLocale store code tree) code = true
    ∧ getFromLocale (addLocale store code tree) (joinDots segs) code
        = some v := by
  refine ⟨?_, ?_⟩
  · simp [hasLocale, jsHas, addLocale, jsGet_jsSet_self]
  · unfold getFromLocale addLocale
    rw [jsGet_jsSet_self]
    have hsplit : splitCh '.' (joinDots segs).data = segs.map String.data := by
      have hjd : (joinDots segs).data = intercalateDots (segs.map String.data) :=
        rfl
      rw [hjd, splitCh_intercalate (segs.map String.data)
        (by simpa using h3)
        (by intro x hx
            rcases List.mem_map.mp hx with ⟨s, hs, rfl⟩
            exact h2 s hs)]
    rw [hsplit, map_mk_data]
    exact h1

theorem addLocale_roundtrip_witness :
    hasLocale (addLocale [] "de" enTree) "de" = true
    ∧ getFromLocale (addLocale [] "de" enTree) (joinDots ["deep", "x"]) "de"
        = some "dx" :=
  addLocale_roundtrip [] "de" enTree ["deep", "x"] "dx"
    (by decide) (by decide) (by decide)

/-! ## Claim theorems: language detection -/

theorem dbFallback_no_db (tag : List Char) (tbl : Bool)
    (dbAll : String → String → Except Unit (Option String))
    (command : String) :
    dbFallback tag tbl dbAll false command = none := by
  unfold dbFallback
  split
  · cases matchVarFrom tag command.data with
    | none => rfl
    | some nameId => simp
  · rfl

theorem executeLanguageSource_none (env : SourceEnv) (ctx : CallCtx)
    (source : String)
    (hi : env.interp (substSource source ctx) = Except.error ())
    (hdb : env.dbPresent = false) :
    executeLanguageSource env ctx source = none := by
  simp [executeLanguageSource, hi, hdb, dbFallback_no_db]

/-- C8 counterexample: with a configured custom hook that throws, an
interpreter that would resolve the user-source command to the loaded
language `en`, the claim says the user-source stage still runs (so
detection would return `en`); the single try/catch of
`detectUserLanguage` instead returns `null` immediately. -/
theorem hook_exception_skips_chain_cex :
    detectUserLanguage cfg8 env8 ctx8 store8 = none
    ∧ executeLanguageSource env8 ctx8 "getUserVar[language;{userId}]"
        = some "en"
    ∧ hasLocale store8 "en" = true := by
  decide

/-- C8 (amended): failures are never propagated to the caller —
`detectUserLanguage` and `executeLanguageSource` are total and return
`null` at worst — and a failure INSIDE `executeLanguageSource` (the
interpreter throwing, with no database fallback available) makes the
user-source (resp. guild-source) stage yield no result, the chain
proceeding exactly as if that stage were absent.  However, an exception
thrown by the custom hook is caught by the single try/catch wrapping the
whole chain, which returns `null` immediately: the user-source and
guild-source stages do NOT run in that case. -/
theorem detector_error_tolerance :
    (∀ (cfg : DetectConfig) (env : SourceEnv) (ctx : CallCtx)
        (store : LocaleStore),
        cfg.customConfigured = true → cfg.hookResult = Except.error () →
        detectUserLanguage cfg env ctx store = none)
    ∧ (∀ (cfg : DetectConfig) (env : SourceEnv) (ctx : CallCtx)
          (store : LocaleStore) (src : String),
        cfg.languageSource = some src →
        env.interp (substSource src ctx) = Except.error () →
        env.dbPresent = false →
        detectUserLanguage cfg env ctx store
          = detectUserLanguage { cfg with languageSource := none }
              env ctx store)
    ∧ (∀ (cfg : DetectConfig) (env : SourceEnv) (ctx : CallCtx)
          (store : LocaleStore) (gsrc : String),
        cfg.guildLanguageSource = some gsrc →
        env.interp (substSource gsrc ctx) = Except.error () →
        env.dbPresent = false →
        detectUserLanguage cfg env ctx store
          = detectUserLanguage { cfg with guildLanguageSource := none }
              env ctx store) := by
  refine ⟨?_, ?_, ?_⟩
  · intro cfg env ctx store h1 h2
    simp [detectUserLanguage, h1, h2]
  · intro cfg env ctx store src hs hi hdb
    have hx : executeLanguageSource env ctx src = none :=
      executeLanguageSource_none env ctx src hi hdb
    cases cfg with
    | mk cc hr ls fb gs =>
        simp only at hs
        subst hs
        simp [detectUserLanguage, hx, validateCand]
  · intro cfg env ctx store gsrc hs hi hdb
    have hx : executeLanguageSource env ctx gsrc = none :=
      executeLanguageSource_none env ctx gsrc hi hdb
    cases cfg with
    | mk cc hr ls fb gs =>
        simp only at hs
        subst hs
        simp [detectUserLanguage, hx, validateCand]

theorem detector_error_tolerance_witness :
    detectUserLanguage cfgW envErr8 ctx8 store8
      = detectUserLanguage { cfgW with languageSource := none }
          envErr8 ctx8 store8 :=
  detector_error_tolerance.2.1 cfgW envErr8 ctx8 store8
    "getUserVar[language;{userId}]" rfl rfl rfl

end AoiLocale
